import Mathlib

/-!
Shallow embedding of the `multicommand` package (src/lib/MultiCommand.js,
src/lib/errors.js, and the NamedCommand base class). The dispatcher `run`
is modelled as a pure function from the registry, the external collaborators
(option tokenizer and text wrapper), and the argument vector to the trace of
observable events (hook invocations, help output, completion-callback calls,
and uncaught throws). Extension hooks (addOptions, parseArgs, ...) are
arbitrary functions supplied by command classes, exactly as JS subclasses
supply overriding methods.
-/

set_option linter.unusedVariables false

/-- A JavaScript value as it appears in minimist output positional lists:
minimist may produce bare numbers for numeric-looking tokens. -/
inductive JsValue where
  | str (s : String)
  | num (n : Int)
deriving DecidableEq, Repr

/-- JS string coercion, as performed by `String(arg)` and by `+` concatenation. -/
def jsValueToString : JsValue → String
  | .str s => s
  | .num n => toString n

/-- JS `String.prototype.toLowerCase`, modelled characterwise. -/
def toLowerCase (s : String) : String := ⟨s.data.map Char.toLower⟩

/-- JS `String.prototype.toUpperCase`, modelled characterwise. -/
def toUpperCase (s : String) : String := ⟨s.data.map Char.toUpper⟩

/-- JS `String.prototype.substr(n)`, modelled characterwise. -/
def substrFrom (s : String) (n : Nat) : String := ⟨s.data.drop n⟩

/-- The error taxonomy of src/lib/errors.js, plus the plain JS `Error` used by
`addCommands` and the default `doDefaultCommand` (which is outside the
CommandError taxonomy). `unexpectedArgError` stores the offending argument;
its message is generated by the constructor. -/
inductive JsError where
  | commandError (message : String)
  | commandUsageError (message : String)
  | unexpectedArgError (arg : JsValue)
  | error (message : String)
deriving DecidableEq, Repr

/-- The `message` property of each error (UnexpectedArgError's constructor
builds its message from the offending argument). -/
def JsError.message : JsError → String
  | .commandError m => m
  | .commandUsageError m => m
  | .unexpectedArgError arg => "UnexpectedArgument: \x22" ++ jsValueToString arg ++ "\x22"
  | .error m => m

/-- `e instanceof errors.CommandError` : membership in the taxonomy. -/
def JsError.isCommandError : JsError → Bool
  | .commandError _ => true
  | .commandUsageError _ => true
  | .unexpectedArgError _ => true
  | .error _ => false

/-- `e instanceof errors.CommandUsageError` : the usage-kind errors. -/
def JsError.isCommandUsageError : JsError → Bool
  | .commandUsageError _ => true
  | .unexpectedArgError _ => true
  | _ => false

/-- Association-list lookup by key, modelling JS object property access. -/
def lookupAssoc {α : Type} : List (String × α) → String → Option α
  | [], _ => none
  | (k, v) :: rest, key => if k == key then some v else lookupAssoc rest key

/-- `Object.assign(base, upd)` as observed through property lookup: keys of
`upd` take precedence over keys of `base`. (The code never iterates the
resulting objects itself; they are handed to the external tokenizer, so only
lookup semantics are relevant.) -/
def assignAssoc {α : Type} (base upd : List (String × α)) : List (String × α) :=
  upd ++ base

/-- A JS value that is either a single string or an array of strings, as
accepted for the `boolean` and `string` keys of a minimist configuration. -/
inductive StrOrList where
  | one (s : String)
  | many (l : List String)
deriving DecidableEq, Repr

/-- The minimist configuration object built up inside `run` — the
option-schema accumulator. `extra` holds any other keys copied verbatim by
the `default:` branch of the `switch` in `addConfigOptions`. -/
structure ConfigOptions where
  boolean : List String
  «alias» : List (String × String)
  default : Option (List (String × JsValue)) := none
  string : Option (List String) := none
  extra : List (String × JsValue) := []
deriving DecidableEq, Repr

/-- A contribution passed to `options.add(moreConfig)`: each minimist key is
optional; absent keys are simply not present on the JS object. -/
structure MoreConfig where
  boolean : Option StrOrList := none
  «alias» : Option (List (String × String)) := none
  default : Option (List (String × JsValue)) := none
  string : Option StrOrList := none
  extra : List (String × JsValue) := []
deriving DecidableEq, Repr

/-- The support function `addConfigOptions` (installed as `configOptions.add`):
`alias` and `default` merge via `Object.assign` (later keys override),
`boolean` and `string` concatenate (or push a lone string), any other key is
copied onto the accumulator. -/
def addConfigOptions (c : ConfigOptions) (more : MoreConfig) : ConfigOptions :=
  let c := match more.«alias» with
    | none => c
    | some v => { c with «alias» := assignAssoc c.«alias» v }
  let c := match more.boolean with
    | none => c
    | some (.many v) => { c with boolean := c.boolean ++ v }
    | some (.one v) => { c with boolean := c.boolean ++ [v] }
  let c := match more.default with
    | none => c
    | some v => { c with default := some (assignAssoc (c.default.getD []) v) }
  let c := match more.string with
    | none => c
    | some (.one v) => { c with string := some (c.string.getD [] ++ [v]) }
    | some (.many v) => { c with string := some (c.string.getD [] ++ v) }
  { c with extra := assignAssoc c.extra more.extra }

/-- The accumulator `run` starts from: `{ boolean: ['h'], alias: { h: 'help' } }`. -/
def initialConfigOptions : ConfigOptions :=
  { boolean := ["h"], «alias» := [("h", "help")] }

/-- The minimist output object flowing through the hook pipeline. `help` is
the parsed help flag (always present: `h`/`help` are pre-declared), `underscore`
is `args._`, and `options` stands for the remaining parsed option values,
which the dispatcher never inspects. -/
structure Args where
  help : Bool := false
  underscore : List JsValue := []
  options : List (String × JsValue) := []
deriving DecidableEq, Repr

/-- `args._ = args._.map(function (arg) { return String(arg); })`. -/
def coerceUnderscore (args : Args) : Args :=
  { args with underscore := args.underscore.map (fun a => .str (jsValueToString a)) }

/-- The support function `getNextNonOptionArg`, installed as `args.getNext`:
shift the first leftover positional, or return null when none remain. -/
def getNextNonOptionArg (args : Args) : Option JsValue × Args :=
  match args.underscore with
  | [] => (none, args)
  | a :: rest => (some a, { args with underscore := rest })

/-- A NamedCommand subclass: the static `getInfo()` data (`stx` models the
`syntax` property) together with its overridable instance hooks. The
`doCommand` execute hook is opaque to the dispatcher (its invocation is
recorded as a trace event), and the bound instance `getHelp` is modelled as
the resulting function of the wrap width. -/
structure CommandClass where
  stx : String
  summary : String
  addOptions : ConfigOptions → ConfigOptions := fun c => c
  parseArgs : Args → Except JsError Args := fun a => .ok a
  getHelp : Nat → String := fun _ => ""

/-- The registration record built by `addCommands`: the `getInfo()` object
extended with `name`, `normName`, `commandClass` and `firstOfGroup`. -/
structure CommandInfo where
  stx : String
  summary : String
  name : String
  normName : String
  firstOfGroup : Bool
  commandClass : CommandClass

/-- A MultiCommand instance. The two default-path hooks are fields so that
subclass overrides can be modelled; their defaults are the base-class no-ops
(`addDefaultOptions` adds nothing, `parseDefaultArgs` parses nothing). -/
structure MultiCommand where
  helpWrapWidth : Nat := 80
  commandInfoArray : List CommandInfo := []
  addDefaultOptions : ConfigOptions → ConfigOptions := fun c => c
  parseDefaultArgs : Args → Except JsError Args := fun a => .ok a

/-- DEFAULT_WRAP_WIDTH from MultiCommand.js. -/
def DEFAULT_WRAP_WIDTH : Nat := 80

/-- The MultiCommand constructor: `options.helpWrapWidth || DEFAULT_WRAP_WIDTH`
(a configured width of 0 is falsy in JS and falls back to the default). -/
def createMultiCommand (helpWrapWidth : Option Nat) : MultiCommand :=
  { helpWrapWidth :=
      match helpWrapWidth with
      | some w => if w = 0 then DEFAULT_WRAP_WIDTH else w
      | none => DEFAULT_WRAP_WIDTH }

/-- `commandInfo.syntax.match(/[^ ]+/)[0]` : the first maximal run of
non-space characters. (When the string contains no non-space character the JS
crashes on `null[0]`; the model returns the empty string, a path no claim
exercises.) -/
def firstNonSpaceRun (s : String) : String :=
  ⟨(s.data.dropWhile (fun c => c == ' ')).takeWhile (fun c => c != ' ')⟩

/-- `argv[0][0] === '-'` : whether the first character is a dash (an empty
string has no first character, so it does not start with a dash, matching
`undefined !== '-'`). -/
def startsWithDash (s : String) : Bool :=
  match s.data with
  | [] => false
  | c :: _ => c == '-'

/-- The registration record derived from one command class inside
`addCommands` (name = first token of the syntax, normName = lowercased name). -/
def mkCommandInfo (c : CommandClass) (firstOfGroup : Bool) : CommandInfo :=
  let name := firstNonSpaceRun c.stx
  { stx := c.stx, summary := c.summary, name := name, normName := toLowerCase name,
    firstOfGroup := firstOfGroup, commandClass := c }

/-- The loop of `addCommands`: derive each class's info, throw on a duplicate
`normName` (abandoning the rest of the batch, with the registry keeping every
info already pushed), otherwise push and continue with `firstOfGroup` false. -/
def addCommandsGo (cur : MultiCommand) (firstOfGroup : Bool) :
    List CommandClass → MultiCommand × Option JsError
  | [] => (cur, none)
  | c :: rest =>
    let info := mkCommandInfo c firstOfGroup
    if cur.commandInfoArray.any (fun prior => prior.normName == info.normName) then
      (cur, some (.error ("duplicate command name \x27" ++ info.normName ++ "\x27")))
    else
      addCommandsGo { cur with commandInfoArray := cur.commandInfoArray ++ [info] } false rest

/-- `MultiCommand#addCommands(commandClasses)`. Returns the registry as left
by the (in-place mutating) JS method together with the thrown error, if any. -/
def addCommands (m : MultiCommand) (commandClasses : List CommandClass) :
    MultiCommand × Option JsError :=
  addCommandsGo m true commandClasses

/-- A sequence of `addCommands` calls; a throw aborts the remaining calls. -/
def addCommandBatches (m : MultiCommand) :
    List (List CommandClass) → MultiCommand × Option JsError
  | [] => (m, none)
  | b :: rest =>
    match addCommands m b with
    | (m2, some err) => (m2, some err)
    | (m2, none) => addCommandBatches m2 rest

/-- The default `MultiCommand#doDefaultCommand(args, next)`: the returned list
records every invocation of `next` (the method is total — it never throws —
and calls `next` exactly once). -/
def doDefaultCommand (m : MultiCommand) (args : Args) : List (Option JsError) :=
  if m.commandInfoArray.length > 0 then
    [some (.commandUsageError "Missing command argument")]
  else
    [some (.error "Default command not implemented")]

/-- `MultiCommand#getHelpIntro(rightMargin)`. -/
def getHelpIntro (rightMargin : Nat) : String :=
  "This tool supports the following commands:\n\n"

/-- `MultiCommand#getHelpTrailer(rightMargin)`. -/
def getHelpTrailer (rightMargin : Nat) : String :=
  "\n"

/-- `MultiCommand#getHelpSummaryEntry(commandInfo, rightMargin)`: the
uppercased name, the remainder of the syntax string past the name's length, a
newline, then the summary indented two spaces and wrapped. `wrapText` is the
external option-help collaborator. -/
def getHelpSummaryEntry (wrapText : String → Nat → Bool → String)
    (commandInfo : CommandInfo) (rightMargin : Nat) : String :=
  let stx := substrFrom commandInfo.stx commandInfo.name.length
  toUpperCase commandInfo.name ++ stx ++ "\n" ++
    wrapText ("  " ++ commandInfo.summary) rightMargin true ++ "\n"

/-- `MultiCommand#getHelp(rightMargin)`: the aggregate help page. -/
def getHelp (wrapText : String → Nat → Bool → String) (m : MultiCommand)
    (rightMargin : Nat) : String :=
  if m.commandInfoArray.length == 0 then
    "Help is not available."
  else
    m.commandInfoArray.foldl
      (fun help commandInfo =>
        help ++ (if commandInfo.firstOfGroup then "\n" else "") ++
          getHelpSummaryEntry wrapText commandInfo rightMargin)
      (getHelpIntro rightMargin)
    ++ getHelpTrailer rightMargin

/-- One observable step of a dispatch: hook invocations, help output, calls of
the completion callback `next`, and an exception propagating out of `run`. -/
inductive RunEvent where
  | initCommand (name : String)
  | extendedOptions (config : ConfigOptions)
  | wroteHelp (text : String)
  | calledParseArgs (args : Args)
  | calledNext (err : Option JsError)
  | invokedDoCommand (args : Args)
  | threw (err : JsError)
deriving DecidableEq, Repr

/-- Whether the event is an invocation of the execute hook. -/
def RunEvent.isInvoke : RunEvent → Bool
  | .invokedDoCommand _ => true
  | _ => false

/-- Whether the event is an invocation of the validate hook. -/
def RunEvent.isParse : RunEvent → Bool
  | .calledParseArgs _ => true
  | _ => false

/-- Whether the event is a call of the completion callback. -/
def RunEvent.isNext : RunEvent → Bool
  | .calledNext _ => true
  | _ => false

/-- Whether the event is an exception escaping `run`. -/
def RunEvent.isThrow : RunEvent → Bool
  | .threw _ => true
  | _ => false

/-- Whether the event is the instantiation-and-binding of a named command. -/
def RunEvent.isInit : RunEvent → Bool
  | .initCommand _ => true
  | _ => false

/-- The external collaborators of `run`: the minimist tokenizer and the
option-help `wrapText` utility, specified only at their interfaces. -/
structure External where
  tokenize : List String → ConfigOptions → Args
  wrapText : String → Nat → Bool → String

/-- The tail of `run` shared by both routing paths, starting from the minimist
output: help short-circuit, string-coercion of leftovers, the guarded call of
the validate hook, the unexpected-argument check, and the execute hook. -/
def runTail (m : MultiCommand) (ext : External) (args : Args)
    (parseArgsFn : Args → Except JsError Args) (getHelpFn : Nat → String) :
    List RunEvent :=
  if args.help then
    [.wroteHelp (ext.wrapText (getHelpFn m.helpWrapWidth) m.helpWrapWidth true),
     .calledNext none]
  else
    let args := coerceUnderscore args
    match parseArgsFn args with
    | .ok args2 =>
      match args2.underscore with
      | a :: _ => [.calledParseArgs args, .calledNext (some (.unexpectedArgError a))]
      | [] => [.calledParseArgs args, .invokedDoCommand args2]
    | .error err =>
      if err.isCommandError then
        [.calledParseArgs args, .calledNext (some err)]
      else
        [.calledParseArgs args, .threw err]

/-- The default-command branch of `run`: extend the options via
`addDefaultOptions`, tokenize the full vector, and continue with the
default-path hooks and the aggregate help. -/
def runDefaultPath (m : MultiCommand) (ext : External) (argv : List String)
    (configOptions : ConfigOptions) : List RunEvent :=
  let cfg := m.addDefaultOptions configOptions
  .extendedOptions cfg ::
    runTail m ext (ext.tokenize argv cfg) m.parseDefaultArgs (getHelp ext.wrapText m)

/-- `MultiCommand#run(argv, next)` as an event trace. -/
def run (m : MultiCommand) (ext : External) (argv : List String) : List RunEvent :=
  match argv with
  | first :: rest =>
    if startsWithDash first then
      runDefaultPath m ext (first :: rest) initialConfigOptions
    else
      let commandName := (toLowerCase first)
      match (m.commandInfoArray.foldl
          (fun acc infoToCheck =>
            if infoToCheck.normName == commandName then some infoToCheck else acc)
          none : Option CommandInfo) with
      | none =>
        [.calledNext (some (.commandUsageError
            ("unrecognized command \x27" ++ commandName ++ "\x27")))]
      | some commandInfo =>
        let cfg := commandInfo.commandClass.addOptions initialConfigOptions
        .initCommand commandInfo.name :: .extendedOptions cfg ::
          runTail m ext (ext.tokenize rest cfg)
            commandInfo.commandClass.parseArgs commandInfo.commandClass.getHelp
  | [] => runDefaultPath m ext [] initialConfigOptions

/-- The case-insensitive lookup loop of `run` (a `forEach` in which the last
matching registration wins), factored for reuse in statements. -/
def lookupCommand (arr : List CommandInfo) (commandName : String) : Option CommandInfo :=
  arr.foldl
    (fun acc infoToCheck =>
      if infoToCheck.normName == commandName then some infoToCheck else acc)
    none

/-- The dispatch decomposition of `run`: for every route that proceeds past
command lookup, the prefix of events emitted before the shared tail, the
tokenizer output the tail receives, and the validate and help hooks the route
selects (the command's own hooks on the named path; `parseDefaultArgs` and the
aggregate help on the default path). `none` when the command is unrecognized. -/
def routeHooks (m : MultiCommand) (ext : External) (argv : List String) :
    Option (List RunEvent × Args × (Args → Except JsError Args) × (Nat → String)) :=
  match argv with
  | first :: rest =>
    if startsWithDash first then
      let cfg := m.addDefaultOptions initialConfigOptions
      some ([.extendedOptions cfg], ext.tokenize (first :: rest) cfg,
        m.parseDefaultArgs, getHelp ext.wrapText m)
    else
      match lookupCommand m.commandInfoArray (toLowerCase first) with
      | none => none
      | some commandInfo =>
        let cfg := commandInfo.commandClass.addOptions initialConfigOptions
        some ([.initCommand commandInfo.name, .extendedOptions cfg],
          ext.tokenize rest cfg,
          commandInfo.commandClass.parseArgs, commandInfo.commandClass.getHelp)
  | [] =>
    let cfg := m.addDefaultOptions initialConfigOptions
    some ([.extendedOptions cfg], ext.tokenize [] cfg,
      m.parseDefaultArgs, getHelp ext.wrapText m)

/-- The infos `addCommands` derives from a batch of classes, with
`firstOfGroup` set on the first and cleared on the rest. -/
def infosAux (firstOfGroup : Bool) : List CommandClass → List CommandInfo
  | [] => []
  | c :: rest => mkCommandInfo c firstOfGroup :: infosAux false rest

/-- A summary entry as the spec describes it: the uppercased command name
followed by the remainder of its syntax string, then the wrapped summary
indented two spaces. Stated over the raw registration data for comparison
with the implementation's rendering. -/
def specEntry (wrapText : String → Nat → Bool → String) (c : CommandClass)
    (rightMargin : Nat) : String :=
  let name := firstNonSpaceRun c.stx
  toUpperCase name ++ substrFrom c.stx name.length ++ "\n" ++
    wrapText ("  " ++ c.summary) rightMargin true ++ "\n"

/-- The aggregate help page as the spec describes it: the intro, then one
entry per registered command in registration order with a blank line before
the first entry of each registration batch, then the trailer; the fixed
not-available message when no commands are registered. -/
def specAggregateHelp (wrapText : String → Nat → Bool → String)
    (batches : List (List CommandClass)) (rightMargin : Nat) : String :=
  if batches.all (fun b => b.isEmpty) then
    "Help is not available."
  else
    getHelpIntro rightMargin ++
      String.join (batches.map (fun b =>
        if b.isEmpty then ""
        else "\n" ++ String.join (b.map (fun c => specEntry wrapText c rightMargin)))) ++
      getHelpTrailer rightMargin

/-- The registration records produced by a sequence of registration batches
(each batch's first info carries the group-start flag). -/
def batchInfos : List (List CommandClass) → List CommandInfo
  | [] => []
  | b :: rest => infosAux true b ++ batchInfos rest

/-- A concrete command class used to instantiate theorems: consumes no
positionals, adds no options. -/
def frobClass : CommandClass :=
  { stx := "frob [-x]", summary := "frobs the widget",
    getHelp := fun _ => "frob help text" }

/-- A command class whose validate hook throws a base-taxonomy (non-usage)
CommandError. -/
def badParseClass : CommandClass :=
  { stx := "bad", summary := "throws from parseArgs",
    parseArgs := fun _ => .error (.commandError "boom") }

/-- A command class whose validate hook throws an error outside the taxonomy. -/
def crashParseClass : CommandClass :=
  { stx := "crash", summary := "throws a plain Error from parseArgs",
    parseArgs := fun _ => .error (.error "bug") }

/-- A command class whose syntax first token differs from `frob` only by
letter case. -/
def frobUpperClass : CommandClass :=
  { stx := "FROB again", summary := "case-colliding frob" }

/-- A command class whose name begins with a dash. -/
def dashClass : CommandClass :=
  { stx := "-x does dashed things", summary := "dash-named command" }

/-- A registry holding just `frob`. -/
def frobRegistry : MultiCommand := (addCommands {} [frobClass]).1

/-- A registry holding `frob`, `bad` and `crash`. -/
def mixedRegistry : MultiCommand :=
  (addCommands {} [frobClass, badParseClass, crashParseClass]).1

/-- A registry holding the dash-named command. -/
def dashRegistry : MultiCommand := (addCommands {} [dashClass]).1

/-- External collaborators whose tokenizer reports no options and no
positionals. -/
def extPlain : External :=
  { tokenize := fun _ _ => {}, wrapText := fun s _ _ => s }

/-- External collaborators whose tokenizer leaves one leftover positional. -/
def extExtra : External :=
  { tokenize := fun _ _ => { underscore := [.str "extra"] }, wrapText := fun s _ _ => s }

/-- External collaborators whose tokenizer reports the help flag set. -/
def extHelp : External :=
  { tokenize := fun _ _ => { help := true }, wrapText := fun s _ _ => s }

theorem lookupCommand_eq (arr : List CommandInfo) (name : String) :
    lookupCommand arr name =
      arr.foldl (fun acc infoToCheck =>
        if infoToCheck.normName == name then some infoToCheck else acc) none := rfl

theorem run_eq_routeHooks (m : MultiCommand) (ext : External) (argv : List String)
    (pre : List RunEvent) (targs : Args) (pa : Args → Except JsError Args)
    (gh : Nat → String)
    (h : routeHooks m ext argv = some (pre, targs, pa, gh)) :
    run m ext argv = pre ++ runTail m ext targs pa gh := by
  match argv with
  | [] =>
    simp only [routeHooks, Option.some.injEq, Prod.mk.injEq] at h
    obtain ⟨h1, h2, h3, h4⟩ := h
    simp [run, runDefaultPath, ← h1, ← h2, ← h3, ← h4]
  | first :: rest =>
    by_cases hd : startsWithDash first
    · simp only [routeHooks, hd, if_true, Option.some.injEq, Prod.mk.injEq] at h
      obtain ⟨h1, h2, h3, h4⟩ := h
      simp [run, runDefaultPath, hd, ← h1, ← h2, ← h3, ← h4]
    · simp only [routeHooks, hd, if_false, Bool.false_eq_true] at h
      match hl : lookupCommand m.commandInfoArray (toLowerCase first) with
      | none => simp [hl] at h
      | some commandInfo =>
        rw [hl] at h
        simp only [Option.some.injEq, Prod.mk.injEq] at h
        obtain ⟨h1, h2, h3, h4⟩ := h
        simp only [run, hd, if_false, Bool.false_eq_true]
        rw [← lookupCommand_eq m.commandInfoArray (toLowerCase first), hl]
        simp [← h1, ← h2, ← h3, ← h4]

theorem routeHooks_pre (m : MultiCommand) (ext : External) (argv : List String)
    (pre : List RunEvent) (targs : Args) (pa : Args → Except JsError Args)
    (gh : Nat → String)
    (h : routeHooks m ext argv = some (pre, targs, pa, gh)) :
    pre.all (fun e => !e.isParse && !e.isInvoke && !e.isNext && !e.isThrow) = true := by
  match argv with
  | [] =>
    simp only [routeHooks, Option.some.injEq, Prod.mk.injEq] at h
    simp [← h.1, RunEvent.isParse, RunEvent.isInvoke, RunEvent.isNext, RunEvent.isThrow]
  | first :: rest =>
    by_cases hd : startsWithDash first
    · simp only [routeHooks, hd, if_true, Option.some.injEq, Prod.mk.injEq] at h
      simp [← h.1, RunEvent.isParse, RunEvent.isInvoke, RunEvent.isNext, RunEvent.isThrow]
    · simp only [routeHooks, hd, if_false, Bool.false_eq_true] at h
      match hl : lookupCommand m.commandInfoArray (toLowerCase first) with
      | none => simp [hl] at h
      | some commandInfo =>
        rw [hl] at h
        simp only [Option.some.injEq, Prod.mk.injEq] at h
        simp [← h.1, RunEvent.isParse, RunEvent.isInvoke, RunEvent.isNext, RunEvent.isThrow]

theorem lookupAssoc_append_some {α : Type} (l1 l2 : List (String × α)) (k : String)
    (v : α) (h : lookupAssoc l1 k = some v) : lookupAssoc (l1 ++ l2) k = some v := by
  induction l1 with
  | nil => simp [lookupAssoc] at h
  | cons p rest ih =>
    obtain ⟨pk, pv⟩ := p
    by_cases hp : pk == k
    · simp only [lookupAssoc, hp, if_true] at h
      simp [lookupAssoc, hp, h]
    · simp only [lookupAssoc, hp, if_false, Bool.false_eq_true] at h
      simp [lookupAssoc, hp, ih h]

/-- C7: starting from the accumulator pre-seeded with boolean `h` aliased to
`help`, `add` concatenates `boolean` and `string` name lists, later `default`
and `alias` entries override earlier keys, and chaining
`add({boolean:['a']})` then `add({string:['b'], default:{b:'z'}})` yields an
accumulator whose boolean list holds `h` and `a`, whose string list holds
`b`, whose default maps `b` to `'z'`, and whose alias still maps `h` to
`help`. -/
theorem addConfigOptions_merge_behavior :
    (∀ (c : ConfigOptions) (more : MoreConfig) (bl : List String),
      more.boolean = some (.many bl) →
        (addConfigOptions c more).boolean = c.boolean ++ bl)
  ∧ (∀ (c : ConfigOptions) (more : MoreConfig) (sl : List String),
      more.string = some (.many sl) →
        (addConfigOptions c more).string = some (c.string.getD [] ++ sl))
  ∧ (∀ (c : ConfigOptions) (more : MoreConfig) (d : List (String × JsValue))
      (k : String) (v : JsValue),
      more.default = some d → lookupAssoc d k = some v →
        lookupAssoc ((addConfigOptions c more).default.getD []) k = some v)
  ∧ (∀ (c : ConfigOptions) (more : MoreConfig) (al : List (String × String))
      (k v : String),
      more.«alias» = some al → lookupAssoc al k = some v →
        lookupAssoc (addConfigOptions c more).«alias» k = some v)
  ∧ ("h" ∈ (addConfigOptions (addConfigOptions initialConfigOptions
        { boolean := some (.many ["a"]) })
        { string := some (.many ["b"]), default := some [("b", JsValue.str "z")] }).boolean
      ∧ "a" ∈ (addConfigOptions (addConfigOptions initialConfigOptions
        { boolean := some (.many ["a"]) })
        { string := some (.many ["b"]), default := some [("b", JsValue.str "z")] }).boolean
      ∧ "b" ∈ ((addConfigOptions (addConfigOptions initialConfigOptions
        { boolean := some (.many ["a"]) })
        { string := some (.many ["b"]), default := some [("b", JsValue.str "z")] }).string.getD [])
      ∧ lookupAssoc ((addConfigOptions (addConfigOptions initialConfigOptions
        { boolean := some (.many ["a"]) })
        { string := some (.many ["b"]), default := some [("b", JsValue.str "z")] }).default.getD [])
          "b" = some (.str "z")
      ∧ lookupAssoc (addConfigOptions (addConfigOptions initialConfigOptions
        { boolean := some (.many ["a"]) })
        { string := some (.many ["b"]), default := some [("b", JsValue.str "z")] }).«alias»
          "h" = some "help") := by
  refine ⟨?_, ?_, ?_, ?_, ?_⟩
  · intro c more bl hb
    obtain ⟨mb, ma, md, ms, me⟩ := more
    simp only at hb
    subst hb
    cases ma <;> cases md <;>
      rcases ms with _ | ⟨_ | _⟩ <;>
      simp [addConfigOptions]
  · intro c more sl hs
    obtain ⟨mb, ma, md, ms, me⟩ := more
    simp only at hs
    subst hs
    rcases mb with _ | ⟨_ | _⟩ <;> cases ma <;> cases md <;>
      simp [addConfigOptions]
  · intro c more d k v hd hl
    obtain ⟨mb, ma, md, ms, me⟩ := more
    simp only at hd
    subst hd
    rcases mb with _ | ⟨_ | _⟩ <;> cases ma <;>
      rcases ms with _ | ⟨_ | _⟩ <;>
      simpa [addConfigOptions, assignAssoc] using lookupAssoc_append_some d _ k v hl
  · intro c more al k v ha hl
    obtain ⟨mb, ma, md, ms, me⟩ := more
    simp only at ha
    subst ha
    rcases mb with _ | ⟨_ | _⟩ <;> cases md <;>
      rcases ms with _ | ⟨_ | _⟩ <;>
      simpa [addConfigOptions, assignAssoc] using lookupAssoc_append_some al _ k v hl
  · refine ⟨?_, ?_, ?_, ?_, ?_⟩ <;> decide

/-- C8: the default (non-overridden) doDefaultCommand calls its completion
callback with the "Missing command argument" usage error when at least one
command is registered, and with a plain (non-usage, non-taxonomy) "not
implemented" Error when none are; in both cases exactly one callback call is
made, and the method never throws (it is total). -/
theorem doDefaultCommand_default_behavior (m : MultiCommand) (args : Args) :
    (m.commandInfoArray.length > 0 →
      doDefaultCommand m args = [some (.commandUsageError "Missing command argument")] ∧
      (JsError.commandUsageError "Missing command argument").isCommandUsageError = true)
  ∧ (¬ m.commandInfoArray.length > 0 →
      doDefaultCommand m args = [some (.error "Default command not implemented")] ∧
      (JsError.error "Default command not implemented").isCommandUsageError = false ∧
      (JsError.error "Default command not implemented").isCommandError = false)
  ∧ (doDefaultCommand m args).length = 1 := by
  refine ⟨fun h => ?_, fun h => ?_, ?_⟩
  · simp [doDefaultCommand, h, JsError.isCommandUsageError]
  · simp [doDefaultCommand, h, JsError.isCommandUsageError, JsError.isCommandError]
  · unfold doDefaultCommand
    split <;> rfl

theorem doDefaultCommand_default_behavior_witness :
    doDefaultCommand frobRegistry {} =
      [some (.commandUsageError "Missing command argument")] ∧
    doDefaultCommand {} {} = [some (.error "Default command not implemented")] :=
  ⟨((doDefaultCommand_default_behavior frobRegistry {}).1 (by decide)).1,
   ((doDefaultCommand_default_behavior {} {}).2.1 (by decide)).1⟩

/-- C4: routing in run. When the vector is non-empty and its first element
does not begin with a dash, that element is lowercased and looked up against
the registered normNames: on no match, run emits exactly one event, a
completion-callback call carrying a usage error naming the unrecognized
(lowercased) command, so no hook runs; on a match, the named-command path runs
with the matched command's hooks. When the vector is empty or its first
element begins with a dash, the default-command path runs. -/
theorem run_routing (m : MultiCommand) (ext : External) (first : String)
    (rest : List String) :
    (startsWithDash first = false →
      (lookupCommand m.commandInfoArray (toLowerCase first) = none →
        run m ext (first :: rest) =
          [.calledNext (some (.commandUsageError
            ("unrecognized command \x27" ++ (toLowerCase first) ++ "\x27")))]) ∧
      (∀ commandInfo,
        lookupCommand m.commandInfoArray (toLowerCase first) = some commandInfo →
        run m ext (first :: rest) =
          .initCommand commandInfo.name ::
          .extendedOptions (commandInfo.commandClass.addOptions initialConfigOptions) ::
          runTail m ext
            (ext.tokenize rest (commandInfo.commandClass.addOptions initialConfigOptions))
            commandInfo.commandClass.parseArgs commandInfo.commandClass.getHelp))
  ∧ (startsWithDash first = true →
      run m ext (first :: rest) = runDefaultPath m ext (first :: rest) initialConfigOptions)
  ∧ run m ext [] = runDefaultPath m ext [] initialConfigOptions := by
  refine ⟨fun hd => ⟨fun hl => ?_, fun commandInfo hl => ?_⟩, fun hd => ?_, ?_⟩
  · simp only [run, hd, if_false, Bool.false_eq_true]
    rw [← lookupCommand_eq m.commandInfoArray (toLowerCase first), hl]
  · simp only [run, hd, if_false, Bool.false_eq_true]
    rw [← lookupCommand_eq m.commandInfoArray (toLowerCase first), hl]
  · simp [run, hd]
  · rfl

theorem run_routing_witness :
    run frobRegistry extPlain ["zap"] =
      [.calledNext (some (.commandUsageError
        ("unrecognized command \x27" ++ (toLowerCase "zap") ++ "\x27")))] ∧
    run frobRegistry extPlain ["-q"] =
      runDefaultPath frobRegistry extPlain ["-q"] initialConfigOptions ∧
    run frobRegistry extPlain ["FROB"] =
      .initCommand (mkCommandInfo frobClass true).name ::
      .extendedOptions ((mkCommandInfo frobClass true).commandClass.addOptions
        initialConfigOptions) ::
      runTail frobRegistry extPlain
        (extPlain.tokenize []
          ((mkCommandInfo frobClass true).commandClass.addOptions initialConfigOptions))
        (mkCommandInfo frobClass true).commandClass.parseArgs
        (mkCommandInfo frobClass true).commandClass.getHelp :=
  ⟨((run_routing frobRegistry extPlain "zap" []).1 (by decide)).1 rfl,
   (run_routing frobRegistry extPlain "-q" []).2.1 (by decide),
   ((run_routing frobRegistry extPlain "FROB" []).1 (by decide)).2
     (mkCommandInfo frobClass true) rfl⟩

theorem all_weaken {l : List RunEvent} {f g : RunEvent → Bool}
    (h : l.all f = true) (imp : ∀ e, f e = true → g e = true) : l.all g = true := by
  rw [List.all_eq_true] at h ⊢
  exact fun e he => imp e (h e he)

/-- C1: whenever dispatch reaches the validate hook (help flag unset) and the
hook returns without throwing, a non-empty leftover `args._` makes run call
the completion callback with an UnexpectedArgError built from the first
leftover token — whose message contains that token — and the execute hook is
never invoked. -/
theorem run_unexpected_arg (m : MultiCommand) (ext : External)
    (argv : List String) (pre : List RunEvent) (targs args2 : Args)
    (pa : Args → Except JsError Args) (gh : Nat → String) (a : JsValue)
    (tl : List JsValue)
    (hroute : routeHooks m ext argv = some (pre, targs, pa, gh))
    (hhelp : targs.help = false)
    (hok : pa (coerceUnderscore targs) = .ok args2)
    (hleft : args2.underscore = a :: tl) :
    RunEvent.calledNext (some (.unexpectedArgError a)) ∈ run m ext argv ∧
    (run m ext argv).all (fun e => !e.isInvoke) = true ∧
    (∃ p q, (JsError.unexpectedArgError a).message = p ++ jsValueToString a ++ q) := by
  have hr := run_eq_routeHooks m ext argv pre targs pa gh hroute
  have hp := routeHooks_pre m ext argv pre targs pa gh hroute
  have htail : runTail m ext targs pa gh =
      [.calledParseArgs (coerceUnderscore targs),
       .calledNext (some (.unexpectedArgError a))] := by
    simp [runTail, hhelp, hok, hleft]
  rw [hr, htail]
  refine ⟨by simp, ?_, ⟨"UnexpectedArgument: \x22", "\x22", rfl⟩⟩
  rw [List.all_append, Bool.and_eq_true]
  refine ⟨all_weaken hp (fun e hf => ?_), by simp [RunEvent.isInvoke]⟩
  simp only [Bool.and_eq_true] at hf
  exact hf.1.1.2

theorem run_unexpected_arg_witness :
    RunEvent.calledNext (some (.unexpectedArgError (.str "extra"))) ∈
      run frobRegistry extExtra ["frob", "-x", "extra"] ∧
    (run frobRegistry extExtra ["frob", "-x", "extra"]).all
      (fun e => !e.isInvoke) = true ∧
    (∃ p q, (JsError.unexpectedArgError (.str "extra")).message =
      p ++ jsValueToString (.str "extra") ++ q) :=
  run_unexpected_arg frobRegistry extExtra ["frob", "-x", "extra"]
    [.initCommand "frob", .extendedOptions initialConfigOptions]
    { underscore := [.str "extra"] } { underscore := [.str "extra"] }
    frobClass.parseArgs frobClass.getHelp (.str "extra") []
    (by rfl) (by rfl) (by rfl) (by rfl)

/-- C2 counterexample: a validate hook that throws a base CommandError — an
error of the taxonomy that is NOT usage-kind — does not propagate out of run
as the claim requires; run catches it and passes it to the completion
callback. -/
theorem run_base_commandError_caught_counterexample :
    (JsError.commandError "boom").isCommandUsageError = false ∧
    RunEvent.calledNext (some (.commandError "boom")) ∈
      run mixedRegistry extPlain ["bad"] ∧
    (run mixedRegistry extPlain ["bad"]).all (fun e => !e.isThrow) = true := by
  refine ⟨rfl, ?_, ?_⟩ <;> decide

/-- C2 (amended): a failure thrown by the validate hook is caught and passed
to the completion callback exactly when it is an instance of the CommandError
taxonomy (whether usage-kind or not); a failure outside the taxonomy
propagates unchanged out of run, uncaught and never passed to the completion
callback, and in either case the execute hook is not invoked. -/
theorem run_validate_throw_policy (m : MultiCommand) (ext : External)
    (argv : List String) (pre : List RunEvent) (targs : Args)
    (pa : Args → Except JsError Args) (gh : Nat → String) (err : JsError)
    (hroute : routeHooks m ext argv = some (pre, targs, pa, gh))
    (hhelp : targs.help = false)
    (hthrow : pa (coerceUnderscore targs) = .error err) :
    (err.isCommandError = true →
      RunEvent.calledNext (some err) ∈ run m ext argv ∧
      (run m ext argv).all (fun e => !e.isThrow) = true ∧
      (run m ext argv).all (fun e => !e.isInvoke) = true)
  ∧ (err.isCommandError = false →
      RunEvent.threw err ∈ run m ext argv ∧
      (run m ext argv).all (fun e => !e.isNext) = true ∧
      (run m ext argv).all (fun e => !e.isInvoke) = true) := by
  have hr := run_eq_routeHooks m ext argv pre targs pa gh hroute
  have hp := routeHooks_pre m ext argv pre targs pa gh hroute
  constructor
  · intro hc
    have htail : runTail m ext targs pa gh =
        [.calledParseArgs (coerceUnderscore targs), .calledNext (some err)] := by
      simp [runTail, hhelp, hthrow, hc]
    rw [hr, htail]
    refine ⟨by simp, ?_, ?_⟩ <;> rw [List.all_append, Bool.and_eq_true]
    · refine ⟨all_weaken hp (fun e hf => ?_), by simp [RunEvent.isThrow]⟩
      simp only [Bool.and_eq_true] at hf
      exact hf.2
    · refine ⟨all_weaken hp (fun e hf => ?_), by simp [RunEvent.isInvoke]⟩
      simp only [Bool.and_eq_true] at hf
      exact hf.1.1.2
  · intro hc
    have htail : runTail m ext targs pa gh =
        [.calledParseArgs (coerceUnderscore targs), .threw err] := by
      simp [runTail, hhelp, hthrow, hc]
    rw [hr, htail]
    refine ⟨by simp, ?_, ?_⟩ <;> rw [List.all_append, Bool.and_eq_true]
    · refine ⟨all_weaken hp (fun e hf => ?_), by simp [RunEvent.isNext]⟩
      simp only [Bool.and_eq_true] at hf
      exact hf.1.2
    · refine ⟨all_weaken hp (fun e hf => ?_), by simp [RunEvent.isInvoke]⟩
      simp only [Bool.and_eq_true] at hf
      exact hf.1.1.2

theorem run_validate_throw_policy_witness :
    (RunEvent.calledNext (some (.commandError "boom")) ∈
        run mixedRegistry extPlain ["bad"] ∧
      (run mixedRegistry extPlain ["bad"]).all (fun e => !e.isThrow) = true ∧
      (run mixedRegistry extPlain ["bad"]).all (fun e => !e.isInvoke) = true) ∧
    (RunEvent.threw (.error "bug") ∈ run mixedRegistry extPlain ["crash"] ∧
      (run mixedRegistry extPlain ["crash"]).all (fun e => !e.isNext) = true ∧
      (run mixedRegistry extPlain ["crash"]).all (fun e => !e.isInvoke) = true) :=
  ⟨(run_validate_throw_policy mixedRegistry extPlain ["bad"]
      [.initCommand "bad", .extendedOptions initialConfigOptions]
      {} badParseClass.parseArgs badParseClass.getHelp (.commandError "boom")
      (by rfl) (by rfl) (by rfl)).1 (by rfl),
   (run_validate_throw_policy mixedRegistry extPlain ["crash"]
      [.initCommand "crash", .extendedOptions initialConfigOptions]
      {} crashParseClass.parseArgs crashParseClass.getHelp (.error "bug")
      (by rfl) (by rfl) (by rfl)).2 (by rfl)⟩

/-- C3: when the tokenized arguments have the help flag set, run writes the
selected help text — the command's own getHelp on the named path, the
registry's aggregate getHelp on the default path — wrapped to helpWrapWidth,
then calls the completion callback with no error; neither the validate hook
nor the execute hook runs. -/
theorem run_help_short_circuit (m : MultiCommand) (ext : External)
    (argv : List String) (pre : List RunEvent) (targs : Args)
    (pa : Args → Except JsError Args) (gh : Nat → String)
    (hroute : routeHooks m ext argv = some (pre, targs, pa, gh))
    (hhelp : targs.help = true) :
    run m ext argv =
      pre ++ [.wroteHelp (ext.wrapText (gh m.helpWrapWidth) m.helpWrapWidth true),
              .calledNext none] ∧
    RunEvent.calledNext none ∈ run m ext argv ∧
    (run m ext argv).all (fun e => !e.isParse) = true ∧
    (run m ext argv).all (fun e => !e.isInvoke) = true ∧
    (∀ first rest commandInfo, argv = first :: rest →
      startsWithDash first = false →
      lookupCommand m.commandInfoArray (toLowerCase first) = some commandInfo →
      gh = commandInfo.commandClass.getHelp) ∧
    ((argv = [] ∨ ∃ first rest, argv = first :: rest ∧ startsWithDash first = true) →
      gh = getHelp ext.wrapText m) := by
  have hr := run_eq_routeHooks m ext argv pre targs pa gh hroute
  have hp := routeHooks_pre m ext argv pre targs pa gh hroute
  have htail : runTail m ext targs pa gh =
      [.wroteHelp (ext.wrapText (gh m.helpWrapWidth) m.helpWrapWidth true),
       .calledNext none] := by
    simp [runTail, hhelp]
  refine ⟨by rw [hr, htail], by rw [hr, htail]; simp, ?_, ?_, ?_, ?_⟩
  · rw [hr, htail, List.all_append, Bool.and_eq_true]
    refine ⟨all_weaken hp (fun e hf => ?_), by simp [RunEvent.isParse]⟩
    simp only [Bool.and_eq_true] at hf
    exact hf.1.1.1
  · rw [hr, htail, List.all_append, Bool.and_eq_true]
    refine ⟨all_weaken hp (fun e hf => ?_), by simp [RunEvent.isInvoke]⟩
    simp only [Bool.and_eq_true] at hf
    exact hf.1.1.2
  · intro first rest commandInfo hargv hd hl
    subst hargv
    simp only [routeHooks, hd, if_false, Bool.false_eq_true, hl,
      Option.some.injEq, Prod.mk.injEq] at hroute
    exact hroute.2.2.2.symm
  · intro hargv
    rcases hargv with rfl | ⟨first, rest, rfl, hd⟩
    · simp only [routeHooks, Option.some.injEq, Prod.mk.injEq] at hroute
      exact hroute.2.2.2.symm
    · simp only [routeHooks, hd, if_true, Option.some.injEq, Prod.mk.injEq] at hroute
      exact hroute.2.2.2.symm

theorem run_help_short_circuit_witness :
    (run frobRegistry extHelp ["frob", "--help"] =
      [.initCommand "frob", .extendedOptions initialConfigOptions] ++
      [.wroteHelp (extHelp.wrapText (frobClass.getHelp frobRegistry.helpWrapWidth)
          frobRegistry.helpWrapWidth true),
       .calledNext none] ∧
     RunEvent.calledNext none ∈ run frobRegistry extHelp ["frob", "--help"] ∧
     (run frobRegistry extHelp ["frob", "--help"]).all (fun e => !e.isParse) = true ∧
     (run frobRegistry extHelp ["frob", "--help"]).all (fun e => !e.isInvoke) = true ∧
     (∀ first rest commandInfo, ["frob", "--help"] = first :: rest →
       startsWithDash first = false →
       lookupCommand frobRegistry.commandInfoArray (toLowerCase first) =
         some commandInfo →
       frobClass.getHelp = commandInfo.commandClass.getHelp) ∧
     ((["frob", "--help"] = ([] : List String) ∨
        ∃ first rest, ["frob", "--help"] = first :: rest ∧ startsWithDash first = true) →
       frobClass.getHelp = getHelp extHelp.wrapText frobRegistry)) ∧
    (run frobRegistry extHelp ["--help"] =
      [.extendedOptions initialConfigOptions] ++
      [.wroteHelp (extHelp.wrapText
          (getHelp extHelp.wrapText frobRegistry frobRegistry.helpWrapWidth)
          frobRegistry.helpWrapWidth true),
       .calledNext none] ∧
     RunEvent.calledNext none ∈ run frobRegistry extHelp ["--help"] ∧
     (run frobRegistry extHelp ["--help"]).all (fun e => !e.isParse) = true ∧
     (run frobRegistry extHelp ["--help"]).all (fun e => !e.isInvoke) = true ∧
     (∀ first rest commandInfo, ["--help"] = first :: rest →
       startsWithDash first = false →
       lookupCommand frobRegistry.commandInfoArray (toLowerCase first) =
         some commandInfo →
       getHelp extHelp.wrapText frobRegistry = commandInfo.commandClass.getHelp) ∧
     ((["--help"] = ([] : List String) ∨
        ∃ first rest, ["--help"] = first :: rest ∧ startsWithDash first = true) →
       getHelp extHelp.wrapText frobRegistry = getHelp extHelp.wrapText frobRegistry)) :=
  ⟨run_help_short_circuit frobRegistry extHelp ["frob", "--help"]
      [.initCommand "frob", .extendedOptions initialConfigOptions]
      { help := true } frobClass.parseArgs frobClass.getHelp (by rfl) (by rfl),
   run_help_short_circuit frobRegistry extHelp ["--help"]
      [.extendedOptions initialConfigOptions]
      { help := true } frobRegistry.parseDefaultArgs
      (getHelp extHelp.wrapText frobRegistry) (by rfl) (by rfl)⟩

theorem addCommandsGo_success (classes : List CommandClass) (cur : MultiCommand)
    (fog : Bool) (h : (addCommandsGo cur fog classes).2 = none) :
    (addCommandsGo cur fog classes).1.commandInfoArray =
      cur.commandInfoArray ++ infosAux fog classes := by
  induction classes generalizing cur fog with
  | nil => simp [addCommandsGo, infosAux]
  | cons c rest ih =>
    by_cases hc : cur.commandInfoArray.any
        (fun prior => prior.normName == (mkCommandInfo c fog).normName)
    · simp [addCommandsGo, hc] at h
    · simp only [addCommandsGo, hc, if_false, Bool.false_eq_true] at h ⊢
      rw [ih _ _ h]
      simp [infosAux, List.append_assoc]

theorem addCommandsGo_nodup (classes : List CommandClass) (cur : MultiCommand)
    (fog : Bool) (h : (addCommandsGo cur fog classes).2 = none)
    (hnd : (cur.commandInfoArray.map (fun i => i.normName)).Nodup) :
    ((addCommandsGo cur fog classes).1.commandInfoArray.map
      (fun i => i.normName)).Nodup := by
  induction classes generalizing cur fog with
  | nil => simpa [addCommandsGo] using hnd
  | cons c rest ih =>
    by_cases hc : cur.commandInfoArray.any
        (fun prior => prior.normName == (mkCommandInfo c fog).normName)
    · simp [addCommandsGo, hc] at h
    · simp only [addCommandsGo, hc, if_false, Bool.false_eq_true] at h ⊢
      refine ih _ _ h ?_
      simp only [List.map_append, List.map_cons, List.map_nil]
      rw [List.nodup_append]
      refine ⟨hnd, List.nodup_singleton _, ?_⟩
      intro x hx
      simp only [List.mem_singleton]
      intro hxeq
      subst hxeq
      simp only [List.mem_map] at hx
      obtain ⟨i, hi, hieq⟩ := hx
      have : cur.commandInfoArray.any
          (fun prior => prior.normName == (mkCommandInfo c fog).normName) = true := by
        rw [List.any_eq_true]
        exact ⟨i, hi, by simp [hieq]⟩
      simp [this] at hc

theorem addCommandsGo_duplicate (m : MultiCommand) (c : CommandClass)
    (rest : List CommandClass) (fog : Bool)
    (hdup : toLowerCase (firstNonSpaceRun c.stx) ∈
      m.commandInfoArray.map (fun i => i.normName)) :
    addCommandsGo m fog (c :: rest) =
      (m, some (.error ("duplicate command name \x27" ++
        toLowerCase (firstNonSpaceRun c.stx) ++ "\x27"))) := by
  have hc : m.commandInfoArray.any
      (fun prior => prior.normName == (mkCommandInfo c fog).normName) = true := by
    rw [List.any_eq_true]
    simp only [List.mem_map] at hdup
    obtain ⟨i, hi, hieq⟩ := hdup
    exact ⟨i, hi, by simp [mkCommandInfo, hieq]⟩
  unfold addCommandsGo
  rw [if_pos hc]
  simp [mkCommandInfo]

theorem addCommandsGo_append (l1 l2 : List CommandClass) (cur : MultiCommand)
    (fog : Bool) :
    addCommandsGo cur fog (l1 ++ l2) =
      match addCommandsGo cur fog l1 with
      | (cur2, some err) => (cur2, some err)
      | (cur2, none) => addCommandsGo cur2 (fog && l1.isEmpty) l2 := by
  induction l1 generalizing cur fog with
  | nil => simp [addCommandsGo]
  | cons c rest ih =>
    by_cases hc : cur.commandInfoArray.any
        (fun prior => prior.normName == (mkCommandInfo c fog).normName)
    · simp [addCommandsGo, hc]
    · simp only [List.cons_append, addCommandsGo, hc, if_false, Bool.false_eq_true]
      rw [show List.append rest l2 = rest ++ l2 from rfl, ih]
      simp

/-- C5: after every sequence of successful addCommands calls, the normNames
(lowercased first syntax tokens) of the registered descriptors are pairwise
distinct; registering a class whose normName equals that of any previously
registered descriptor — including names differing only by letter case —
throws an Error naming the colliding normalized name synchronously at
registration time. -/
theorem addCommands_unique_normNames :
    (∀ (m0 : MultiCommand) (batches : List (List CommandClass)),
      m0.commandInfoArray = [] →
      (addCommandBatches m0 batches).2 = none →
      ((addCommandBatches m0 batches).1.commandInfoArray.map
        (fun i => i.normName)).Nodup)
  ∧ (∀ (m : MultiCommand) (c : CommandClass) (rest : List CommandClass),
      toLowerCase (firstNonSpaceRun c.stx) ∈
        m.commandInfoArray.map (fun i => i.normName) →
      addCommands m (c :: rest) =
        (m, some (.error ("duplicate command name \x27" ++
          toLowerCase (firstNonSpaceRun c.stx) ++ "\x27"))))
  ∧ (∀ (c1 c2 : CommandClass),
      toLowerCase (firstNonSpaceRun c1.stx) = toLowerCase (firstNonSpaceRun c2.stx) →
      ∀ (m0 : MultiCommand), m0.commandInfoArray = [] →
      (addCommands m0 [c1, c2]).2 =
        some (.error ("duplicate command name \x27" ++
          toLowerCase (firstNonSpaceRun c2.stx) ++ "\x27"))) := by
  have hbatches : ∀ (batches : List (List CommandClass)) (m : MultiCommand),
      (addCommandBatches m batches).2 = none →
      (m.commandInfoArray.map (fun i => i.normName)).Nodup →
      ((addCommandBatches m batches).1.commandInfoArray.map
        (fun i => i.normName)).Nodup := by
    intro batches
    induction batches with
    | nil => intro m h hnd; simpa [addCommandBatches] using hnd
    | cons b rest ih =>
      intro m h hnd
      match hb : addCommands m b with
      | (m2, some err) => simp [addCommandBatches, hb] at h
      | (m2, none) =>
        simp only [addCommandBatches, hb] at h ⊢
        refine ih m2 h ?_
        have := addCommandsGo_nodup b m true (by rw [show addCommandsGo m true b = (m2, none) from hb]) hnd
        rwa [show addCommandsGo m true b = (m2, none) from hb] at this
  refine ⟨fun m0 batches h0 hs => hbatches batches m0 hs (by simp [h0]), ?_, ?_⟩
  · intro m c rest hdup
    exact addCommandsGo_duplicate m c rest true hdup
  · intro c1 c2 heq m0 h0
    show (addCommandsGo m0 true [c1, c2]).2 = _
    have h1 : m0.commandInfoArray.any
        (fun prior => prior.normName == (mkCommandInfo c1 true).normName) = false := by
      rw [h0]; rfl
    simp only [addCommandsGo, h1, if_false, Bool.false_eq_true]
    have hc2 : ((m0.commandInfoArray ++ [mkCommandInfo c1 true]).any
        (fun prior => prior.normName == (mkCommandInfo c2 false).normName)) = true := by
      simp [h0, mkCommandInfo, heq]
    rw [if_pos hc2]
    simp [mkCommandInfo]

theorem addCommands_unique_normNames_witness :
    (((addCommandBatches ({} : MultiCommand)
        [[frobClass], [badParseClass, crashParseClass]]).1.commandInfoArray.map
      (fun i => i.normName)).Nodup) ∧
    addCommands frobRegistry [frobUpperClass] =
      (frobRegistry, some (.error ("duplicate command name \x27" ++
        toLowerCase (firstNonSpaceRun frobUpperClass.stx) ++ "\x27"))) ∧
    (addCommands ({} : MultiCommand) [frobClass, frobUpperClass]).2 =
      some (.error ("duplicate command name \x27" ++
        toLowerCase (firstNonSpaceRun frobUpperClass.stx) ++ "\x27")) :=
  ⟨addCommands_unique_normNames.1 {} [[frobClass], [badParseClass, crashParseClass]]
      rfl (by rfl),
   addCommands_unique_normNames.2.1 frobRegistry frobUpperClass [] (by decide),
   addCommands_unique_normNames.2.2 frobClass frobUpperClass (by decide) {} rfl⟩

/-- C10: addCommands is not atomic on failure. If the classes before `c` in a
batch all register successfully and `c` collides with a name registered by
then, the duplicate-name Error is thrown with every earlier class of the
batch already appended to the registry; those registrations remain in effect
(the registry equals the state after registering exactly the pre-duplicate
classes), and the classes after the duplicate are never registered. -/
theorem addCommands_not_atomic (m : MultiCommand) (pre post : List CommandClass)
    (c : CommandClass)
    (hpre : (addCommands m pre).2 = none)
    (hdup : toLowerCase (firstNonSpaceRun c.stx) ∈
      (addCommands m pre).1.commandInfoArray.map (fun i => i.normName)) :
    (addCommands m (pre ++ c :: post)).1 = (addCommands m pre).1 ∧
    (addCommands m (pre ++ c :: post)).2 =
      some (.error ("duplicate command name \x27" ++
        toLowerCase (firstNonSpaceRun c.stx) ++ "\x27")) ∧
    (addCommands m (pre ++ c :: post)).1.commandInfoArray =
      m.commandInfoArray ++ infosAux true pre := by
  have happ := addCommandsGo_append pre (c :: post) m true
  have hsplit : addCommands m (pre ++ c :: post) =
      addCommandsGo (addCommands m pre).1 (true && pre.isEmpty) (c :: post) := by
    show addCommandsGo m true (pre ++ c :: post) = _
    rw [happ]
    have : addCommandsGo m true pre = ((addCommands m pre).1, none) := by
      show addCommands m pre = _
      rw [show (addCommands m pre) =
        ((addCommands m pre).1, (addCommands m pre).2) from rfl, hpre]
    rw [this]
  have hdupstep := addCommandsGo_duplicate (addCommands m pre).1 c post
    (true && pre.isEmpty) hdup
  rw [hsplit, hdupstep]
  refine ⟨rfl, rfl, ?_⟩
  exact addCommandsGo_success pre m true hpre

theorem addCommands_not_atomic_witness :
    (addCommands {} ([frobClass] ++ frobUpperClass :: [crashParseClass])).1 =
      (addCommands {} [frobClass]).1 ∧
    (addCommands {} ([frobClass] ++ frobUpperClass :: [crashParseClass])).2 =
      some (.error ("duplicate command name \x27" ++
        toLowerCase (firstNonSpaceRun frobUpperClass.stx) ++ "\x27")) ∧
    (addCommands {} ([frobClass] ++ frobUpperClass :: [crashParseClass])).1.commandInfoArray =
      MultiCommand.commandInfoArray {} ++ infosAux true [frobClass] :=
  addCommands_not_atomic {} [frobClass] [crashParseClass] frobUpperClass
    (by rfl) (by decide)

theorem strFoldl_append_init (l : List String) (init : String) :
    l.foldl (fun a b => a ++ b) init = init ++ l.foldl (fun a b => a ++ b) "" := by
  induction l generalizing init with
  | nil => simp
  | cons x xs ih =>
    simp only [List.foldl_cons]
    rw [ih (init ++ x), ih ("" ++ x)]
    simp [String.append_assoc]

theorem strJoin_cons (s : String) (l : List String) :
    String.join (s :: l) = s ++ String.join l := by
  simp only [String.join, List.foldl_cons]
  rw [strFoldl_append_init l ("" ++ s)]
  simp

theorem strJoin_append (l1 l2 : List String) :
    String.join (l1 ++ l2) = String.join l1 ++ String.join l2 := by
  induction l1 with
  | nil => simp [String.join]
  | cons x xs ih =>
    rw [List.cons_append, strJoin_cons, strJoin_cons, ih, String.append_assoc]

theorem addCommandBatches_success (batches : List (List CommandClass))
    (m : MultiCommand) (h : (addCommandBatches m batches).2 = none) :
    (addCommandBatches m batches).1.commandInfoArray =
      m.commandInfoArray ++ batchInfos batches := by
  induction batches generalizing m with
  | nil => simp [addCommandBatches, batchInfos]
  | cons b rest ih =>
    match hb : addCommands m b with
    | (m2, some err) => simp [addCommandBatches, hb] at h
    | (m2, none) =>
      simp only [addCommandBatches, hb] at h ⊢
      rw [ih m2 h]
      have h2 := addCommandsGo_success b m true
        (by rw [show addCommandsGo m true b = (m2, none) from hb])
      rw [show addCommandsGo m true b = (m2, none) from hb] at h2
      rw [h2]
      simp [batchInfos, List.append_assoc]

theorem helpFold (wrap : String → Nat → Bool → String) (rm : Nat)
    (l : List CommandInfo) (init : String) :
    l.foldl (fun help commandInfo =>
      help ++ (if commandInfo.firstOfGroup then "\n" else "") ++
        getHelpSummaryEntry wrap commandInfo rm) init =
      init ++ String.join (l.map (fun commandInfo =>
        (if commandInfo.firstOfGroup then "\n" else "") ++
          getHelpSummaryEntry wrap commandInfo rm)) := by
  induction l generalizing init with
  | nil => simp [String.join]
  | cons x xs ih =>
    simp only [List.foldl_cons, List.map_cons]
    rw [ih, strJoin_cons]
    simp [String.append_assoc]

theorem summaryEntry_mk (wrap : String → Nat → Bool → String) (rm : Nat)
    (c : CommandClass) (fog : Bool) :
    getHelpSummaryEntry wrap (mkCommandInfo c fog) rm = specEntry wrap c rm := rfl

theorem entries_tail (wrap : String → Nat → Bool → String) (rm : Nat)
    (rest : List CommandClass) :
    String.join ((infosAux false rest).map (fun commandInfo =>
      (if commandInfo.firstOfGroup then "\n" else "") ++
        getHelpSummaryEntry wrap commandInfo rm)) =
      String.join (rest.map (fun c => specEntry wrap c rm)) := by
  induction rest with
  | nil => simp [infosAux]
  | cons c r ih =>
    simp only [infosAux, List.map_cons]
    rw [strJoin_cons, strJoin_cons, ih, summaryEntry_mk]
    simp [mkCommandInfo]

theorem entries_of_batch (wrap : String → Nat → Bool → String) (rm : Nat)
    (b : List CommandClass) :
    String.join ((infosAux true b).map (fun commandInfo =>
      (if commandInfo.firstOfGroup then "\n" else "") ++
        getHelpSummaryEntry wrap commandInfo rm)) =
      (if b.isEmpty then ""
        else "\n" ++ String.join (b.map (fun c => specEntry wrap c rm))) := by
  match b with
  | [] => simp [infosAux, String.join]
  | c :: rest =>
    simp only [infosAux, List.map_cons, List.isEmpty_cons, if_false, Bool.false_eq_true]
    rw [strJoin_cons, entries_tail, summaryEntry_mk, strJoin_cons]
    simp [mkCommandInfo, String.append_assoc]

theorem join_batches (wrap : String → Nat → Bool → String) (rm : Nat)
    (bs : List (List CommandClass)) :
    String.join ((batchInfos bs).map (fun commandInfo =>
      (if commandInfo.firstOfGroup then "\n" else "") ++
        getHelpSummaryEntry wrap commandInfo rm)) =
      String.join (bs.map (fun b =>
        if b.isEmpty then ""
        else "\n" ++ String.join (b.map (fun c => specEntry wrap c rm)))) := by
  induction bs with
  | nil => simp [batchInfos]
  | cons b rest ih =>
    simp only [batchInfos, List.map_append, List.map_cons]
    rw [strJoin_append, strJoin_cons, ih, entries_of_batch]

theorem infosAux_eq_nil (fog : Bool) (b : List CommandClass) :
    infosAux fog b = [] ↔ b = [] := by
  cases b <;> simp [infosAux]

theorem batchInfos_nil_iff (bs : List (List CommandClass)) :
    batchInfos bs = [] ↔ bs.all (fun b => b.isEmpty) = true := by
  induction bs with
  | nil => simp [batchInfos]
  | cons b rest ih =>
    simp [batchInfos, infosAux_eq_nil, ih, List.isEmpty_iff]

/-- C9: for every registry built by a sequence of registration batches, the
default aggregate getHelp renders the intro, then one summary entry per
registered command in registration order with a blank line inserted before
the first entry of each batch, then the trailer — each entry being the
uppercased name, the remainder of the syntax string, and the summary wrapped
indented two spaces — and the fixed "Help is not available." when no
commands are registered. -/
theorem getHelp_aggregate (wrap : String → Nat → Bool → String) (rm : Nat)
    (m0 : MultiCommand) (batches : List (List CommandClass))
    (h0 : m0.commandInfoArray = [])
    (hsucc : (addCommandBatches m0 batches).2 = none) :
    getHelp wrap (addCommandBatches m0 batches).1 rm =
      specAggregateHelp wrap batches rm := by
  have harr : (addCommandBatches m0 batches).1.commandInfoArray = batchInfos batches := by
    rw [addCommandBatches_success batches m0 hsucc, h0, List.nil_append]
  by_cases hb : batches.all (fun b => b.isEmpty) = true
  · have hnil : batchInfos batches = [] := (batchInfos_nil_iff batches).2 hb
    simp [getHelp, specAggregateHelp, harr, hnil, hb]
  · have hne : batchInfos batches ≠ [] :=
      fun hnil => hb ((batchInfos_nil_iff batches).1 hnil)
    have hcond : ¬ (((addCommandBatches m0 batches).1.commandInfoArray.length == 0) = true) := by
      rw [harr]
      simpa [List.length_eq_zero] using hne
    unfold getHelp specAggregateHelp
    rw [if_neg hcond, if_neg hb, harr, helpFold, join_batches]

theorem getHelp_aggregate_witness :
    getHelp extPlain.wrapText
        (addCommandBatches {} [[frobClass], [badParseClass]]).1 80 =
      specAggregateHelp extPlain.wrapText [[frobClass], [badParseClass]] 80 :=
  getHelp_aggregate extPlain.wrapText 80 {} [[frobClass], [badParseClass]]
    rfl (by rfl)

/-- C6 counterexample: a registered command whose name begins with a dash is
never matched. Here the registry holds a command named `-x`, and the argument
vector `["-x"]` — whose first element equals that name exactly — routes to
the default-command path: the command is never instantiated and its `name` is
never bound, contrary to the claim that every registered command is matched
by a vector starting with its name. -/
theorem run_dash_name_unmatched_counterexample :
    dashRegistry.commandInfoArray.map (fun i => i.name) = ["-x"] ∧
    (run dashRegistry extPlain ["-x"]).all (fun e => !e.isInit) = true ∧
    run dashRegistry extPlain ["-x"] =
      runDefaultPath dashRegistry extPlain ["-x"] initialConfigOptions := by
  refine ⟨by decide, by decide, rfl⟩

theorem lookupCommand_foldl_no_match (arr : List CommandInfo) (name : String)
    (h : ∀ i ∈ arr, i.normName ≠ name) (acc : Option CommandInfo) :
    arr.foldl (fun acc infoToCheck =>
      if infoToCheck.normName == name then some infoToCheck else acc) acc = acc := by
  induction arr generalizing acc with
  | nil => rfl
  | cons x xs ih =>
    have hx : (x.normName == name) = false := by
      simp [h x (List.mem_cons_self x xs)]
    simp only [List.foldl_cons, hx, if_false, Bool.false_eq_true]
    exact ih (fun i hi => h i (List.mem_cons_of_mem x hi)) acc

theorem lookupCommand_mem (arr : List CommandInfo) (info : CommandInfo)
    (name : String) (hnodup : (arr.map (fun i => i.normName)).Nodup)
    (hmem : info ∈ arr) (hname : info.normName = name) :
    lookupCommand arr name = some info := by
  suffices h : ∀ acc, arr.foldl (fun acc infoToCheck =>
      if infoToCheck.normName == name then some infoToCheck else acc) acc =
      some info from h none
  induction arr with
  | nil => exact absurd hmem (List.not_mem_nil info)
  | cons x xs ih =>
    intro acc
    rcases List.mem_cons.1 hmem with rfl | hmem2
    · have hx : (info.normName == name) = true := by simp [hname]
      simp only [List.foldl_cons, hx, if_true]
      refine lookupCommand_foldl_no_match xs name (fun i hi hbad => ?_) (some info)
      simp only [List.map_cons, List.nodup_cons] at hnodup
      refine hnodup.1 ?_
      rw [hname, ← hbad]
      exact List.mem_map_of_mem (fun j => j.normName) hi
    · simp only [List.map_cons, List.nodup_cons] at hnodup
      simp only [List.foldl_cons]
      exact ih hnodup.2 hmem2 _

/-- C6 (amended): for every registered command whose name does not begin with
a dash, and every argument vector whose first element equals the command's
name in any letter case (given the registration invariants: distinct
normNames, normName = lowercased name), run matches that command and the
instantiated definition's `name` is bound to the registered display-case
form; moreover registration always derives `name` as the first token of the
syntax string as written, with `normName` its lowercasing. -/
theorem run_case_insensitive_match (m : MultiCommand) (ext : External)
    (first : String) (rest : List String) (info : CommandInfo)
    (hmem : info ∈ m.commandInfoArray)
    (hnodup : (m.commandInfoArray.map (fun i => i.normName)).Nodup)
    (hnorm : info.normName = toLowerCase info.name)
    (hmatch : toLowerCase first = toLowerCase info.name)
    (hdash : startsWithDash first = false) :
    run m ext (first :: rest) =
      .initCommand info.name ::
      .extendedOptions (info.commandClass.addOptions initialConfigOptions) ::
      runTail m ext
        (ext.tokenize rest (info.commandClass.addOptions initialConfigOptions))
        info.commandClass.parseArgs info.commandClass.getHelp ∧
    (∀ (c : CommandClass) (fog : Bool),
      (mkCommandInfo c fog).name = firstNonSpaceRun c.stx ∧
      (mkCommandInfo c fog).normName = toLowerCase ((mkCommandInfo c fog).name)) := by
  refine ⟨?_, fun c fog => ⟨rfl, rfl⟩⟩
  have hl : lookupCommand m.commandInfoArray (toLowerCase first) = some info :=
    lookupCommand_mem m.commandInfoArray info (toLowerCase first) hnodup hmem
      (by rw [hnorm, hmatch])
  simp only [run, hdash, if_false, Bool.false_eq_true]
  rw [← lookupCommand_eq m.commandInfoArray (toLowerCase first), hl]

theorem run_case_insensitive_match_witness :
    (run frobRegistry extPlain ["FROB"] =
      .initCommand (mkCommandInfo frobClass true).name ::
      .extendedOptions ((mkCommandInfo frobClass true).commandClass.addOptions
        initialConfigOptions) ::
      runTail frobRegistry extPlain
        (extPlain.tokenize []
          ((mkCommandInfo frobClass true).commandClass.addOptions initialConfigOptions))
        (mkCommandInfo frobClass true).commandClass.parseArgs
        (mkCommandInfo frobClass true).commandClass.getHelp ∧
    (∀ (c : CommandClass) (fog : Bool),
      (mkCommandInfo c fog).name = firstNonSpaceRun c.stx ∧
      (mkCommandInfo c fog).normName = toLowerCase ((mkCommandInfo c fog).name))) :=
  run_case_insensitive_match frobRegistry extPlain "FROB" []
    (mkCommandInfo frobClass true) (List.Mem.head _) (by decide) (by rfl)
    (by rfl) (by rfl)

theorem addConfigOptions_merge_behavior_witness :
    (addConfigOptions initialConfigOptions
      { boolean := some (.many ["a"]) }).boolean =
        initialConfigOptions.boolean ++ ["a"] ∧
    (addConfigOptions initialConfigOptions
      { string := some (.many ["b"]),
        default := some [("b", JsValue.str "z")] }).string =
        some (initialConfigOptions.string.getD [] ++ ["b"]) ∧
    lookupAssoc ((addConfigOptions initialConfigOptions
      { string := some (.many ["b"]),
        default := some [("b", JsValue.str "z")] }).default.getD []) "b" =
        some (JsValue.str "z") ∧
    lookupAssoc (addConfigOptions initialConfigOptions
      { «alias» := some [("v", "verbose")] }).«alias» "v" = some "verbose" :=
  ⟨addConfigOptions_merge_behavior.1 initialConfigOptions _ ["a"] rfl,
   addConfigOptions_merge_behavior.2.1 initialConfigOptions _ ["b"] rfl,
   addConfigOptions_merge_behavior.2.2.1 initialConfigOptions _
     [("b", JsValue.str "z")] "b" (JsValue.str "z") rfl (by decide),
   addConfigOptions_merge_behavior.2.2.2.1 initialConfigOptions _
     [("v", "verbose")] "v" "verbose" rfl (by decide)⟩
